import Mathlib

/-!
Shallow embedding of the zeke AI-provider gateway (Rust sources under `src/`),
covering the routing/dispatch engine (`src/providers/mod.rs`), the streaming
pipeline (`src/streaming/mod.rs`), the Anthropic-family message translator
(`src/providers/claude.rs`), the action-approval engine (`src/actions/mod.rs`)
and the todo task manager (`src/tools/todo.rs`).

Modelling conventions:
* Rust `String` is embedded as `Str := List Char` (`str` turns a Lean string
  literal into one).
* `f32` values (scores, error rates) are embedded as `ℚ`; `Duration` values
  are embedded at millisecond granularity as `Nat`.
* Fallible Rust functions returning `ZekeResult<T>` become
  `Except ZekeErr T`.
* `HashMap`s are embedded as association lists; iteration over a map becomes
  iteration over the list.
* `async` is irrelevant to the verified properties: each async method is a
  pure state-passing function.
-/

namespace Zeke

/-- Rust `String`, embedded as its list of characters. -/
abbrev Str := List Char

/-- A Lean string literal, as a `Str`. -/
def str (s : String) : Str := s.data

/-- Error taxonomy of `src/error.rs` (`ZekeError`).  The payload of each
variant is its message string; variants carrying foreign error types
(`reqwest::Error`, `io::Error`, ...) keep just the message. -/
inductive ZekeErr where
  | provider (msg : Str)
  | auth (msg : Str)
  | config (msg : Str)
  | network (msg : Str)
  | io (msg : Str)
  | json (msg : Str)
  | messagePack (msg : Str)
  | invalidInput (msg : Str)
  | commandFailed (msg : Str)
deriving DecidableEq

/-- The closed provider enum of `src/providers/mod.rs`. -/
inductive Provider where
  | openAI
  | claude
  | copilot
  | ghostLLM
  | ollama
  | deepSeek
deriving DecidableEq

/-- Capabilities a provider may declare (`src/providers/mod.rs`). -/
inductive Capability where
  | chatCompletion
  | codeCompletion
  | codeAnalysis
  | codeExplanation
  | codeRefactoring
  | testGeneration
  | projectContext
  | commitGeneration
  | securityScanning
  | streaming
deriving DecidableEq

/-- `ProviderConfig`: static per-provider configuration.  `timeout` is in
milliseconds. -/
structure ProviderConfig where
  provider : Provider
  priority : Nat
  capabilities : List Capability
  maxRequestsPerMinute : Nat
  timeoutMs : Nat
  fallbackProviders : List Provider
deriving DecidableEq

/-- `ProviderConfig::has_capability`. -/
def ProviderConfig.hasCapability (c : ProviderConfig) (cap : Capability) : Bool :=
  c.capabilities.contains cap

/-- `ProviderHealth`: dynamic per-provider health.  `last_check` (an
`Instant`) is dropped: no verified property concerns wall-clock staleness.
`response_time` is in milliseconds, `error_rate` is a rational in place of
the source's `f32`. -/
structure ProviderHealth where
  provider : Provider
  isHealthy : Bool
  responseTimeMs : Nat
  errorRate : ℚ
deriving DecidableEq

/-- `ProviderHealth::new`: fresh row registered with an adapter. -/
def ProviderHealth.init (p : Provider) : ProviderHealth :=
  { provider := p, isHealthy := true, responseTimeMs := 0, errorRate := 0 }

structure ChatMessage where
  role : Str
  content : Str
deriving DecidableEq

structure ChatRequest where
  messages : List ChatMessage
  model : Option Str
  temperature : Option ℚ
  maxTokens : Option Nat
  stream : Option Bool
deriving DecidableEq

structure Usage where
  promptTokens : Nat
  completionTokens : Nat
  totalTokens : Nat
deriving DecidableEq

structure ChatResponse where
  content : Str
  model : Str
  provider : Provider
  usage : Option Usage
deriving DecidableEq

/-! ## Health EMA (`ProviderManager::update_health`) -/

/-- The exponential-moving-average step applied to `error_rate` on every
dispatch attempt: `error_rate * 0.9 + error_value * 0.1` where the error
value is `0.0` on success and `1.0` on failure. -/
def updateErrorRate (e : ℚ) (isHealthy : Bool) : ℚ :=
  e * (9/10) + (if isHealthy then 0 else 1) * (1/10)

/-- `ProviderManager::update_health` applied to one health row: sets the
healthy flag, stores the measured response time and advances the EMA. -/
def updateHealthRow (h : ProviderHealth) (isHealthy : Bool) (elapsedMs : Nat) :
    ProviderHealth :=
  { h with
    isHealthy := isHealthy
    responseTimeMs := elapsedMs
    errorRate := updateErrorRate h.errorRate isHealthy }

/-- `error_rate` after `n` consecutive attempts with the same outcome,
starting from the fresh value `0`. -/
def emaAfter (isHealthy : Bool) : Nat → ℚ
  | 0 => 0
  | n + 1 => updateErrorRate (emaAfter isHealthy n) isHealthy

/-! ## Capability selector (`ProviderManager::select_best_provider`,
`ProviderManager::select_providers_with_fallback`)

The registry's three `HashMap`s are embedded as lists: `configs` as a
`List ProviderConfig` (the map's values in iteration order) and the health
map as a `List (Provider × ProviderHealth)` association list. -/

/-- The health association list (`health: HashMap<Provider, ProviderHealth>`). -/
abbrev HealthMap := List (Provider × ProviderHealth)

/-- `HashMap::get` on an association list. -/
def alookup {α β : Type} [DecidableEq α] (m : List (α × β)) (k : α) : Option β :=
  (m.find? (fun kv => kv.1 == k)).map (fun kv => kv.2)

/-- The provider score computed inside `select_best_provider`:
`priority × (0.1 if unhealthy) × (1000/response_time_ms if nonzero)
× (1 − error_rate)`; when no health row exists the score is the bare
priority. -/
def scoreOf (health : HealthMap) (c : ProviderConfig) : ℚ :=
  match alookup health c.provider with
  | none => (c.priority : ℚ)
  | some h =>
      (c.priority : ℚ) * (if h.isHealthy then 1 else 1/10)
        * (if h.responseTimeMs ≠ 0 then 1000 / (h.responseTimeMs : ℚ) else 1)
        * (1 - h.errorRate)

/-- The loop body of `select_best_provider`: running best provider and best
score (initially `None` and `0.0`), advanced over the config list; a
candidate replaces the best only when its score is strictly greater. -/
def selectBestLoop (cap : Capability) (health : HealthMap) :
    List ProviderConfig → Option Provider × ℚ → Option Provider × ℚ
  | [], best => best
  | c :: rest, (best, bestScore) =>
      if c.hasCapability cap then
        if bestScore < scoreOf health c then
          selectBestLoop cap health rest (some c.provider, scoreOf health c)
        else
          selectBestLoop cap health rest (best, bestScore)
      else
        selectBestLoop cap health rest (best, bestScore)

/-- `ProviderManager::select_best_provider`. -/
def selectBestProvider (configs : List ProviderConfig) (health : HealthMap)
    (cap : Capability) : Except ZekeErr Provider :=
  match (selectBestLoop cap health configs (none, 0)).1 with
  | some p => .ok p
  | none => .error (.provider (str "No suitable provider found"))

/-- `configs.get(&p)` on the config list. -/
def findConfig (configs : List ProviderConfig) (p : Provider) :
    Option ProviderConfig :=
  configs.find? (fun c => c.provider == p)

/-- The fallback tail appended by `select_providers_with_fallback`: the
primary's `fallback_providers` in declaration order, kept only when the
fallback's own config lists the capability. -/
def fallbacksFor (configs : List ProviderConfig) (cap : Capability)
    (primary : Provider) : List Provider :=
  match findConfig configs primary with
  | some c => c.fallbackProviders.filter (fun f =>
      match findConfig configs f with
      | some fc => fc.hasCapability cap
      | none => false)
  | none => []

/-- `ProviderManager::select_providers_with_fallback`. -/
def selectProvidersWithFallback (configs : List ProviderConfig)
    (health : HealthMap) (cap : Capability) : Except ZekeErr (List Provider) :=
  match selectBestProvider configs health cap with
  | .ok primary => .ok (primary :: fallbacksFor configs cap primary)
  | .error _ => .error (.provider (str "No providers available for capability"))

/-! ## Dispatch loop (`ProviderManager::chat_completion`) -/

/-- `ProviderManager::update_health`: rewrites the provider's health row (a
no-op when the provider has no row, mirroring `health.get_mut`). -/
def updateHealth (m : HealthMap) (p : Provider) (isHealthy : Bool)
    (elapsedMs : Nat) : HealthMap :=
  m.map (fun kv => if kv.1 == p then (kv.1, updateHealthRow kv.2 isHealthy elapsedMs) else kv)

/-- A registered adapter, as seen by the dispatch loop: a function from the
request to the adapter's result paired with the measured elapsed time in
milliseconds (the `Instant` arithmetic around the call). -/
abbrev Client := ChatRequest → Except ZekeErr ChatResponse × Nat

/-- The registry's `providers` map: `None` models an unregistered provider
(`get_provider_client_ref` returning `None`). -/
abbrev ClientMap := Provider → Option Client

/-- The `for provider in providers` loop of `ProviderManager::chat_completion`:
skip unregistered providers; on success update health and return the
response; on failure (any error) update health and continue; after
exhausting the list fail with `Provider("All providers failed")`. -/
def dispatchLoop (req : ChatRequest) (clients : ClientMap) :
    List Provider → HealthMap → Except ZekeErr ChatResponse × HealthMap
  | [], health => (.error (.provider (str "All providers failed")), health)
  | p :: rest, health =>
      match clients p with
      | none => dispatchLoop req clients rest health
      | some client =>
          match client req with
          | (.ok resp, d) => (.ok resp, updateHealth health p true d)
          | (.error _, d) => dispatchLoop req clients rest (updateHealth health p false d)

/-- `ProviderManager::chat_completion`: select the ordered provider list for
`ChatCompletion` against the current health map, then run the dispatch
loop. -/
def chatCompletion (configs : List ProviderConfig) (clients : ClientMap)
    (health : HealthMap) (req : ChatRequest) :
    Except ZekeErr ChatResponse × HealthMap :=
  match selectProvidersWithFallback configs health .chatCompletion with
  | .ok providers => dispatchLoop req clients providers health
  | .error e => (.error e, health)

/-! ## Streaming pipeline (`src/streaming/mod.rs`)

`StreamManager::create_real_stream` runs the adapter's `chat_completion`
fully and synthesizes chunks by word-slicing the content (groups of 2
words); `create_simulated_stream` does the same over a canned response with
groups of 3 words.  A produced stream is embedded as the list of items it
yields. -/

/-- `StreamedResponse`: one chunk of a synthesized stream. -/
structure StreamedResponse where
  delta : Str
  model : Str
  provider : Provider
  finished : Bool
deriving DecidableEq

/-- Whitespace as used by `str::split_whitespace` (the ASCII cases of
Unicode `White_Space`; the verified properties use only these). -/
def isWS (c : Char) : Bool :=
  c == ' ' || c == '\t' || c == '\n' || c == '\r'

/-- Accumulator-passing worker for `split_whitespace`: `acc` holds the
reversed characters of the word currently being read. -/
def splitWSAux : Str → Str → List Str
  | [], acc => if acc.isEmpty then [] else [acc.reverse]
  | c :: rest, acc =>
      if isWS c then
        if acc.isEmpty then splitWSAux rest []
        else acc.reverse :: splitWSAux rest []
      else splitWSAux rest (c :: acc)

/-- `str::split_whitespace().collect()`: the whitespace-separated words of a
string, empty pieces discarded. -/
def splitWS (s : Str) : List Str := splitWSAux s []

/-- Fuelled worker for `chunksOf`; the fuel is an upper bound on the list
length, making the recursion structural (and kernel-evaluable). -/
def chunksOfAux {α : Type} (k : Nat) : Nat → List α → List (List α)
  | 0, _ => []
  | _, [] => []
  | fuel + 1, x :: xs =>
      (x :: xs.take (k - 1)) :: chunksOfAux k fuel (xs.drop (k - 1))

/-- `slice::chunks(k)`: split a list into consecutive groups of `k`
elements, the last group possibly shorter.  (The source only calls this
with `k = 2` and `k = 3`.) -/
def chunksOf {α : Type} (k : Nat) (l : List α) : List (List α) :=
  chunksOfAux k l.length l

/-- `Vec::join(sep)` for a one-character separator (`chunk.join(" ")`). -/
def joinSep (sep : Char) : List Str → Str
  | [] => []
  | [w] => w
  | w :: ws => w ++ sep :: joinSep sep ws

/-- The chunk body built for the group at index `i`: the group's words
joined by single spaces, prefixed with one space unless it is the first
group; groups joining to the empty string are skipped
(`if !delta.is_empty()`). -/
def deltaOf (i : Nat) (chunk : List Str) : Option Str :=
  let d := joinSep ' ' chunk
  if d.isEmpty then none else some (if i = 0 then d else ' ' :: d)

/-- The non-final deltas synthesized from a response content: word groups of
size `k`, enumerated and mapped through `deltaOf`. -/
def streamDeltas (k : Nat) (content : Str) : List Str :=
  ((chunksOf k (splitWS content)).enum).filterMap (fun ic => deltaOf ic.1 ic.2)

/-- The full chunk sequence a synthesized stream yields on the success path:
one `finished = false` chunk per delta, then the final empty
`finished = true` chunk. -/
def streamChunks (k : Nat) (content : Str) (model : Str) (p : Provider) :
    List StreamedResponse :=
  (streamDeltas k content).map (fun d =>
      { delta := d, model := model, provider := p, finished := false })
    ++ [{ delta := [], model := model, provider := p, finished := true }]

/-- `StreamManager::create_real_stream`: the yielded item list, as a function
of the adapter's `chat_completion` result (`k = 2`; on error the stream
yields exactly that error). -/
def createRealStream (result : Except ZekeErr ChatResponse) (p : Provider) :
    List (Except ZekeErr StreamedResponse) :=
  match result with
  | .ok resp => (streamChunks 2 resp.content resp.model p).map .ok
  | .error e => [.error e]

/-- `StreamManager::create_simulated_stream`: same shape with `k = 3`,
chunks tagged with the canned response's own provider. -/
def createSimulatedStream (fullResponse : ChatResponse) :
    List (Except ZekeErr StreamedResponse) :=
  (streamChunks 3 fullResponse.content fullResponse.model fullResponse.provider).map .ok

/-- Worker for `collapseWS`: the flag records whether the previous
character belonged to a whitespace run already emitted as one space. -/
def collapseWSAux (afterWS : Bool) : Str → Str
  | [] => []
  | c :: rest =>
      if isWS c then
        if afterWS then collapseWSAux true rest
        else ' ' :: collapseWSAux true rest
      else c :: collapseWSAux false rest

/-- Modelled from the claim's normalization for C6: every maximal run of
whitespace in the content becomes a single space (runs at either end
included). -/
def collapseWS (s : Str) : Str := collapseWSAux false s

/-! ## Anthropic-family message translation (`src/providers/claude.rs`) -/

/-- One step of the `for message in messages` loop of
`ClaudeClient::convert_messages`: `system` contents accumulate into the
system prompt (a newline is pushed first only when the prompt is already
non-empty); `user`/`assistant` messages are forwarded unchanged; any other
role is forwarded as `user`.  Forwarded messages are kept as
`(role, content)` pairs, standing for the emitted JSON objects. -/
def convertStep (acc : Str × List (Str × Str)) (m : ChatMessage) :
    Str × List (Str × Str) :=
  if m.role = str "system" then
    (if acc.1.isEmpty then acc.1 ++ m.content else acc.1 ++ '\n' :: m.content,
     acc.2)
  else if m.role = str "user" ∨ m.role = str "assistant" then
    (acc.1, acc.2 ++ [(m.role, m.content)])
  else
    (acc.1, acc.2 ++ [(str "user", m.content)])

/-- `ClaudeClient::convert_messages`: `(system_prompt, claude_messages)`. -/
def convertMessages (messages : List ChatMessage) : Str × List (Str × Str) :=
  messages.foldl convertStep ([], [])

/-- The top-level `system` field of the wire payload built by
`ClaudeClient::chat_completion`: present exactly when the accumulated
system prompt is non-empty. -/
def claudeSystemField (messages : List ChatMessage) : Option Str :=
  let s := (convertMessages messages).1
  if s.isEmpty then none else some s

/-- The contents of the `role = "system"` messages, in order. -/
def sysContents (messages : List ChatMessage) : List Str :=
  messages.filterMap (fun m =>
    if m.role = str "system" then some m.content else none)

/-- How one non-system message is forwarded: `user`/`assistant` keep their
role, anything else becomes `user`; `system` messages are not forwarded. -/
def forwardMessage (m : ChatMessage) : Option (Str × Str) :=
  if m.role = str "system" then none
  else if m.role = str "user" ∨ m.role = str "assistant" then
    some (m.role, m.content)
  else some (str "user", m.content)

/-! ## Action-approval engine (`src/actions/mod.rs`) -/

/-- `ApprovalStatus`. -/
inductive ApprovalStatus where
  | pending
  | allowedOnce
  | allowedSession
  | allowedProject
  | denied
deriving DecidableEq

/-- `ActionType`: the tagged action variants, content fields included. -/
inductive ActionType where
  | fileWrite (path : Str)
  | fileRead (path : Str)
  | fileDelete (path : Str)
  | commandExecution (command : Str)
  | networkRequest (url : Str)
  | gitCommit (message : Str)
  | gitPush (remote : Str) (branch : Str)
  | projectSearch (pattern : Str)
  | projectModify (scope : Str)
deriving DecidableEq

/-- `std::mem::discriminant`: the tag of an action, content fields
ignored. -/
def actionTag : ActionType → Nat
  | .fileWrite _ => 0
  | .fileRead _ => 1
  | .fileDelete _ => 2
  | .commandExecution _ => 3
  | .networkRequest _ => 4
  | .gitCommit _ => 5
  | .gitPush _ _ => 6
  | .projectSearch _ => 7
  | .projectModify _ => 8

structure ActionContext where
  sessionId : Str
  projectPath : Option Str
  userId : Option Str
  reasoning : Option Str
  impactAssessment : Option Str
deriving DecidableEq

structure ActionRequest where
  id : Str
  actionType : ActionType
  context : ActionContext
  timestamp : Nat
deriving DecidableEq

/-- `ActionPattern`. -/
inductive ActionPattern where
  | actionType (a : ActionType)
  | filePattern (glob : Str)
  | commandPattern (pat : Str)
  | all
deriving DecidableEq

/-- `RuleCondition`. -/
inductive RuleCondition where
  | projectScope (scope : Str)
  | sessionProperty (key : Str) (value : Str)
  | timeWindow (startHour : Nat) (endHour : Nat)
deriving DecidableEq

structure ApprovalRule where
  name : Str
  actionPattern : ActionPattern
  autoApprove : Bool
  conditions : List RuleCondition
deriving DecidableEq

/-- `str::contains(sub)`: `sub` occurs as a contiguous substring. -/
def strContains (hay sub : Str) : Bool :=
  if sub.isPrefixOf hay then true
  else
    match hay with
    | [] => false
    | _ :: t => strContains t sub

/-- `TerminalApprover::action_matches_pattern`.  `str::contains` is infix
containment; `glob.replace("*", "")` removes every star. -/
def actionMatchesPattern (action : ActionType) (pat : ActionPattern) : Bool :=
  match pat with
  | .all => true
  | .actionType p => actionTag action == actionTag p
  | .filePattern glob =>
      match action with
      | .fileWrite path | .fileRead path | .fileDelete path =>
          strContains path (glob.filter (fun c => c ≠ '*'))
      | _ => false
  | .commandPattern pat =>
      match action with
      | .commandExecution command => strContains command pat
      | _ => false

/-- `TerminalApprover::check_rule_conditions`, with the local clock's hour
passed in explicitly.  `SessionProperty` is skipped (reserved). -/
def checkRuleConditions (hour : Nat) (req : ActionRequest) :
    List RuleCondition → Bool
  | [] => true
  | cond :: rest =>
      match cond with
      | .projectScope scope =>
          match req.context.projectPath with
          | some p => if strContains p scope then checkRuleConditions hour req rest else false
          | none => false
      | .sessionProperty _ _ => checkRuleConditions hour req rest
      | .timeWindow s e =>
          if hour < s || e < hour then false
          else checkRuleConditions hour req rest

/-- `TerminalApprover::check_auto_approval`: the first rule whose pattern
matches and whose conditions hold decides (`AllowedOnce` when
`auto_approve`, `Denied` otherwise). -/
def checkAutoApproval (hour : Nat) (rules : List ApprovalRule)
    (req : ActionRequest) : Option ApprovalStatus :=
  match rules with
  | [] => none
  | rule :: rest =>
      if actionMatchesPattern req.actionType rule.actionPattern
          && checkRuleConditions hour req rule.conditions then
        some (if rule.autoApprove then .allowedOnce else .denied)
      else checkAutoApproval hour rest req

/-- The session cache (`HashMap<ActionType, ApprovalStatus>`) and the
project cache (`HashMap<String, HashMap<ActionType, ApprovalStatus>>`),
as association lists. -/
abbrev SessionApprovals := List (ActionType × ApprovalStatus)
abbrev ProjectApprovals := List (Str × SessionApprovals)

/-- `TerminalApprover::check_existing_approvals`: a session entry counts
only when it is `AllowedSession`; a project entry counts when it is
`AllowedProject` or `Denied`.  Both lookups use the full `ActionType`
value as key. -/
def checkExistingApprovals (session : SessionApprovals)
    (project : ProjectApprovals) (req : ActionRequest) :
    Option ApprovalStatus :=
  match alookup session req.actionType with
  | some .allowedSession => some .allowedSession
  | _ =>
      match req.context.projectPath with
      | some projectPath =>
          match alookup project projectPath with
          | some projectMap =>
              match alookup projectMap req.actionType with
              | some .allowedProject => some .allowedProject
              | some .denied => some .denied
              | _ => none
          | none => none
      | none => none

/-- The decision computed by `TerminalApprover::request_approval`: rules
first, then the caches, then the interactive prompt — whose demo
implementation (`prompt_user`) always answers `AllowedOnce`. -/
def requestApprovalStatus (hour : Nat) (rules : List ApprovalRule)
    (session : SessionApprovals) (project : ProjectApprovals)
    (req : ActionRequest) : ApprovalStatus :=
  match checkAutoApproval hour rules req with
  | some status => status
  | none =>
      match checkExistingApprovals session project req with
      | some status => status
      | none => .allowedOnce

/-! ## Todo task manager (`src/tools/todo.rs`) -/

/-- `TaskStatus`. -/
inductive TaskStatus where
  | pending
  | inProgress
  | completed
  | blocked
  | cancelled
deriving DecidableEq

/-- `Task`.  The clock-dependent fields (`created_at`, `updated_at`,
`completed_at`) and the unused estimate fields are dropped; no verified
property concerns them. -/
structure Task where
  id : Str
  content : Str
  activeForm : Str
  status : TaskStatus
  priority : Nat
  tags : List Str
  dependencies : List Str
  parentTask : Option Str
  assignee : Option Str
deriving DecidableEq

/-- `Task::set_status` (timestamp bookkeeping dropped). -/
def Task.setStatus (t : Task) (s : TaskStatus) : Task := { t with status := s }

/-- The managed state: the current list's tasks.  (`task_index` is the
derived id-to-position map kept in sync with it.) -/
abbrev Tasks := List Task

/-- `TaskManager::add_task`: every listed dependency id must already be
present; the task is appended.  The task's own status and id are not
validated. -/
def addTask (tasks : Tasks) (t : Task) : Except ZekeErr Tasks :=
  if t.dependencies.all (fun d => tasks.any (fun u => u.id == d)) then
    .ok (tasks ++ [t])
  else .error (.invalidInput (str "Dependency task not found"))

/-- `TaskManager::update_task_status`: find the first task with the id,
refuse to change `Completed` or `Cancelled` tasks, refuse a transition to
`InProgress` while a task with a different id is already `InProgress`;
otherwise set the status in place.  No dependency check is performed. -/
def updateTaskStatus (tasks : Tasks) (taskId : Str) (status : TaskStatus) :
    Except ZekeErr Tasks :=
  match tasks.findIdx? (fun t => t.id == taskId) with
  | none => .error (.invalidInput (str "Task not found"))
  | some i =>
      match tasks[i]? with
      | none => .error (.invalidInput (str "Task not found"))
      | some t =>
          if t.status = .completed then
            .error (.invalidInput (str "Cannot change status of completed task"))
          else if t.status = .cancelled then
            .error (.invalidInput (str "Cannot change status of cancelled task"))
          else if status = .inProgress
              ∧ 0 < (tasks.filter
                  (fun u => u.id != taskId && u.status == TaskStatus.inProgress)).length then
            .error (.invalidInput (str "Another task is already in progress"))
          else
            .ok (tasks.set i (t.setStatus status))

/-- `TaskManager::remove_task`: remove the first task with the id, failing
when absent. -/
def removeTask (tasks : Tasks) (taskId : Str) : Except ZekeErr Tasks :=
  if tasks.any (fun t => t.id == taskId) then
    .ok (tasks.eraseP (fun t => t.id == taskId))
  else .error (.invalidInput (str "Task not found"))

/-- `TaskManager::set_task_list`: replace the current list wholesale (the
index is rebuilt; no validation of statuses or dependencies happens). -/
def setTaskList (_tasks : Tasks) (newTasks : Tasks) : Except ZekeErr Tasks :=
  .ok newTasks

/-- The single-active-task invariant: at most one task is `InProgress`. -/
def atMostOneInProgress (tasks : Tasks) : Prop :=
  (tasks.filter (fun t => t.status == TaskStatus.inProgress)).length ≤ 1

instance (tasks : Tasks) : Decidable (atMostOneInProgress tasks) := by
  unfold atMostOneInProgress; infer_instance

/-- `Task::can_start`'s dependency condition, phrased over the task list:
every dependency id names an existing task whose status is `Completed`.
(In the source this logic is dead: `update_task_status` never consults it,
and the `TaskManager::get_task` it would call is `unimplemented!`.) -/
def depsCompleted (tasks : Tasks) (t : Task) : Bool :=
  t.dependencies.all (fun d =>
    match tasks.find? (fun u => u.id == d) with
    | some dep => dep.status == TaskStatus.completed
    | none => false)

/-! ## Concrete fixtures

Closed instances used by the counterexample and witness theorems below. -/

/-- A one-message user request (`[{user, "hi"}]`). -/
def reqHi : ChatRequest :=
  { messages := [{ role := str "user", content := str "hi" }]
    model := none, temperature := none, maxTokens := none, stream := none }

/-- A canned successful Claude response. -/
def respClaude : ChatResponse :=
  { content := str "hello", model := str "claude-3-5-sonnet-20241022"
    provider := .claude, usage := none }

/-- A registry in which OpenAI fails with `Auth` (HTTP 401) in 5 ms and
Claude answers successfully in 7 ms; nothing else is registered. -/
def clientsAuthFail : ClientMap := fun p =>
  match p with
  | .openAI => some (fun _ => (.error (.auth (str "HTTP 401")), 5))
  | .claude => some (fun _ => (.ok respClaude, 7))
  | _ => none

/-- Fresh health rows for the two registered providers. -/
def healthFresh : HealthMap :=
  [(.openAI, .init .openAI), (.claude, .init .claude)]

/-- A single-provider config list: OpenAI, priority 8, chat-capable, no
fallbacks. -/
def cfgSolo : ProviderConfig :=
  { provider := .openAI, priority := 8, capabilities := [.chatCompletion]
    maxRequestsPerMinute := 60, timeoutMs := 30000, fallbackProviders := [] }

/-- A health map in which OpenAI's `error_rate` has saturated at `1`
(reachable after enough consecutive failures). -/
def healthSaturated : HealthMap :=
  [(.openAI, { provider := .openAI, isHealthy := true, responseTimeMs := 0,
               errorRate := 1 })]

/-- The message list `[{system, ""}, {system, "B"}, {user, "hi"}]`. -/
def msgsEmptySys : List ChatMessage :=
  [{ role := str "system", content := [] },
   { role := str "system", content := str "B" },
   { role := str "user", content := str "hi" }]

/-- An action request carrying `FileWrite("/b")` and no project path. -/
def reqWriteB : ActionRequest :=
  { id := str "r1", actionType := .fileWrite (str "/b")
    context := { sessionId := str "s", projectPath := none, userId := none,
                 reasoning := none, impactAssessment := none }
    timestamp := 0 }

/-- A session cache holding `AllowedSession` for `FileWrite("/a")`. -/
def sessionForA : SessionApprovals :=
  [(.fileWrite (str "/a"), .allowedSession)]

/-- A task fixture with the given id, status and dependency ids. -/
def taskMk (id : String) (st : TaskStatus) (deps : List Str) : Task :=
  { id := str id, content := str "c", activeForm := str "doing c", status := st
    priority := 3, tags := [], dependencies := deps, parentTask := none
    assignee := none }

/-! # Theorems -/

/-! ## Health EMA (claim C4) -/

lemma emaAfter_true (n : Nat) : emaAfter true n = 0 := by
  induction n with
  | zero => rfl
  | succ n ih => simp [emaAfter, updateErrorRate, ih]

lemma emaAfter_false (n : Nat) : emaAfter false n = 1 - (9/10 : ℚ) ^ n := by
  induction n with
  | zero => simp [emaAfter]
  | succ n ih =>
    simp only [emaAfter, updateErrorRate, ih, pow_succ, Bool.false_eq_true,
      if_false]
    ring

/-- Claim C4 (confirmed): each dispatch attempt rewrites the attempted
provider's `error_rate` to `0.9·error_rate + 0.1·0` on success and
`0.9·error_rate + 0.1·1` on failure; starting from `error_rate = 0`, after
`n` consecutive successes the rate is at most `0.9ⁿ`, and after `n`
consecutive failures it is at least `1 − 0.9ⁿ`. -/
theorem health_ema_bounds :
    (∀ (h : ProviderHealth) (ok : Bool) (d : Nat),
        (updateHealthRow h ok d).errorRate =
          h.errorRate * (9/10) + (if ok then 0 else 1) * (1/10)) ∧
    ∀ n : Nat,
      emaAfter true n ≤ (9/10 : ℚ) ^ n ∧ 1 - (9/10 : ℚ) ^ n ≤ emaAfter false n := by
  refine ⟨fun h ok d => rfl, fun n => ⟨?_, ?_⟩⟩
  · rw [emaAfter_true]
    positivity
  · rw [emaAfter_false]

/-! ## Dispatch loop (claims C1, C3) -/

/-- Claim C1 (counterexample): with OpenAI first and failing with an `Auth`
error, `chat_completion`'s loop does *not* return that error — it falls
through to Claude and returns Claude's response, so the fallback *is*
invoked.  (The source's loop matches only `Ok`/`Err`, never the error
kind.) -/
theorem dispatch_auth_shortcircuit_cex :
    (dispatchLoop reqHi clientsAuthFail [Provider.openAI, Provider.claude]
        healthFresh).1 = Except.ok respClaude ∧
    (Except.ok respClaude : Except ZekeErr ChatResponse) ≠
      Except.error (ZekeErr.auth (str "HTTP 401")) := by
  constructor
  · rfl
  · simp

/-- Claim C1 (amended): the dispatch loop treats every error alike — an
attempt that fails with *any* error kind (`Auth` and `InvalidInput`
included) updates the failed provider's health row and falls through to the
remaining providers; an attempt that succeeds returns at once, leaving the
remaining providers un-invoked and their health rows untouched. -/
theorem dispatch_uniform_error_policy :
    ∀ (req : ChatRequest) (clients : ClientMap) (p : Provider)
      (rest : List Provider) (health : HealthMap) (client : Client) (d : Nat),
      (∀ e : ZekeErr, clients p = some client → client req = (.error e, d) →
        dispatchLoop req clients (p :: rest) health =
          dispatchLoop req clients rest (updateHealth health p false d)) ∧
      (∀ r : ChatResponse, clients p = some client → client req = (.ok r, d) →
        dispatchLoop req clients (p :: rest) health =
          (.ok r, updateHealth health p true d)) := by
  intro req clients p rest health client d
  constructor
  · intro e hc hr
    simp [dispatchLoop, hc, hr]
  · intro r hc hr
    simp [dispatchLoop, hc, hr]

theorem dispatch_uniform_error_policy_witness :
    dispatchLoop reqHi clientsAuthFail [Provider.openAI, Provider.claude]
        healthFresh =
      dispatchLoop reqHi clientsAuthFail [Provider.claude]
        (updateHealth healthFresh Provider.openAI false 5) :=
  (dispatch_uniform_error_policy reqHi clientsAuthFail Provider.openAI
      [Provider.claude] healthFresh
      (fun _ => (.error (.auth (str "HTTP 401")), 5)) 5).1
    (.auth (str "HTTP 401")) rfl rfl

/-- Claim C3 (counterexample): with a single provider failing with
`Auth("HTTP 401")`, the exhausted loop returns the fixed
`Provider("All providers failed")` error, not the last error seen. -/
theorem dispatch_last_error_cex :
    (dispatchLoop reqHi clientsAuthFail [Provider.openAI] healthFresh).1 =
      Except.error (ZekeErr.provider (str "All providers failed")) ∧
    ZekeErr.provider (str "All providers failed") ≠
      ZekeErr.auth (str "HTTP 401") := by
  constructor
  · rfl
  · simp

/-- Claim C3 (amended): whenever every provider on the ordered list is
either unregistered or fails, the loop's result is the fixed error
`Provider("All providers failed")`; the last error seen from the attempted
providers is discarded. -/
theorem dispatch_exhaustion_error :
    ∀ (req : ChatRequest) (clients : ClientMap) (ps : List Provider)
      (health : HealthMap),
      (∀ p ∈ ps, ∀ client, clients p = some client →
        ∃ e d, client req = (.error e, d)) →
      (dispatchLoop req clients ps health).1 =
        Except.error (ZekeErr.provider (str "All providers failed")) := by
  intro req clients ps
  induction ps with
  | nil => intro health _; rfl
  | cons p rest ih =>
    intro health hfail
    match hc : clients p with
    | none =>
        simpa [dispatchLoop, hc] using
          ih health (fun q hq => hfail q (List.mem_cons_of_mem p hq))
    | some client =>
        obtain ⟨e, d, hr⟩ := hfail p (List.mem_cons_self p rest) client hc
        simpa [dispatchLoop, hc, hr] using
          ih (updateHealth health p false d)
            (fun q hq => hfail q (List.mem_cons_of_mem p hq))

theorem dispatch_exhaustion_error_witness :
    (dispatchLoop reqHi clientsAuthFail [Provider.openAI] healthFresh).1 =
      Except.error (ZekeErr.provider (str "All providers failed")) :=
  dispatch_exhaustion_error reqHi clientsAuthFail [Provider.openAI] healthFresh
    (by
      intro p hp client hc
      rw [List.mem_singleton] at hp
      subst hp
      simp only [clientsAuthFail, Option.some.injEq] at hc
      exact ⟨.auth (str "HTTP 401"), 5, by rw [← hc]⟩)

theorem health_ema_bounds_witness :
    emaAfter true 3 ≤ (9/10 : ℚ) ^ 3 ∧
    1 - (9/10 : ℚ) ^ 3 ≤ emaAfter false 3 :=
  health_ema_bounds.2 3

/-! ## Capability selector (claim C2) -/

lemma selectBestLoop_stable (cap : Capability) (health : HealthMap) :
    ∀ (cs : List ProviderConfig) (b : Option Provider) (s : ℚ),
      (∀ c ∈ cs, c.hasCapability cap = true → scoreOf health c ≤ s) →
      selectBestLoop cap health cs (b, s) = (b, s) := by
  intro cs
  induction cs with
  | nil => intro b s _; rfl
  | cons c rest ih =>
    intro b s hub
    by_cases hcap : c.hasCapability cap
    · have hle : scoreOf health c ≤ s := hub c (List.mem_cons_self c rest) hcap
      have hnot : ¬ s < scoreOf health c := not_lt.mpr hle
      simp only [selectBestLoop, hcap, if_true, hnot, if_false]
      exact ih b s (fun c' hc' => hub c' (List.mem_cons_of_mem c hc'))
    · simp only [selectBestLoop, hcap]
      simp only [Bool.false_eq_true, if_false]
      exact ih b s (fun c' hc' => hub c' (List.mem_cons_of_mem c hc'))

lemma selectBestLoop_le (cap : Capability) (health : HealthMap) :
    ∀ (cs : List ProviderConfig) (b : Option Provider) (s : ℚ),
      s ≤ (selectBestLoop cap health cs (b, s)).2 := by
  intro cs
  induction cs with
  | nil => intro b s; exact le_refl s
  | cons c rest ih =>
    intro b s
    by_cases hcap : c.hasCapability cap
    · by_cases hlt : s < scoreOf health c
      · simp only [selectBestLoop, hcap, if_true, hlt]
        exact le_of_lt (lt_of_lt_of_le hlt (ih (some c.provider) (scoreOf health c)))
      · simp only [selectBestLoop, hcap, if_true, hlt, if_false]
        exact ih b s
    · simp only [selectBestLoop, hcap, Bool.false_eq_true, if_false]
      exact ih b s

lemma selectBestLoop_ub (cap : Capability) (health : HealthMap) :
    ∀ (cs : List ProviderConfig) (b : Option Provider) (s : ℚ) (c : ProviderConfig),
      c ∈ cs → c.hasCapability cap = true →
      scoreOf health c ≤ (selectBestLoop cap health cs (b, s)).2 := by
  intro cs
  induction cs with
  | nil => intro b s c hc; exact absurd hc (List.not_mem_nil c)
  | cons c₀ rest ih =>
    intro b s c hc hcap
    rcases List.mem_cons.mp hc with rfl | hmem
    · simp only [selectBestLoop, hcap, if_true]
      by_cases hlt : s < scoreOf health c
      · simp only [hlt, if_true]
        exact selectBestLoop_le cap health rest (some c.provider) (scoreOf health c)
      · simp only [hlt, if_false]
        exact le_trans (not_lt.mp hlt) (selectBestLoop_le cap health rest b s)
    · by_cases hcap₀ : c₀.hasCapability cap
      · by_cases hlt : s < scoreOf health c₀
        · simp only [selectBestLoop, hcap₀, if_true, hlt]
          exact ih (some c₀.provider) (scoreOf health c₀) c hmem hcap
        · simp only [selectBestLoop, hcap₀, if_true, hlt, if_false]
          exact ih b s c hmem hcap
      · simp only [selectBestLoop, hcap₀, Bool.false_eq_true, if_false]
        exact ih b s c hmem hcap

lemma selectBestLoop_attained (cap : Capability) (health : HealthMap) :
    ∀ (cs : List ProviderConfig) (b : Option Provider) (s : ℚ),
      (∃ c ∈ cs, c.hasCapability cap = true ∧ s < scoreOf health c) →
      ∃ c ∈ cs, c.hasCapability cap = true ∧
        scoreOf health c = (selectBestLoop cap health cs (b, s)).2 ∧
        (selectBestLoop cap health cs (b, s)).1 = some c.provider := by
  intro cs
  induction cs with
  | nil => rintro b s ⟨c, hc, -⟩; exact absurd hc (List.not_mem_nil c)
  | cons c₀ rest ih =>
    rintro b s ⟨c, hc, hcap, hlt⟩
    by_cases hcap₀ : c₀.hasCapability cap
    · by_cases hlt₀ : s < scoreOf health c₀
      · simp only [selectBestLoop, hcap₀, if_true, hlt₀]
        by_cases hrest : ∃ c' ∈ rest, c'.hasCapability cap = true ∧
            scoreOf health c₀ < scoreOf health c'
        · obtain ⟨c', hc', hcap', heq, hfst⟩ :=
            ih (some c₀.provider) (scoreOf health c₀) hrest
          exact ⟨c', List.mem_cons_of_mem c₀ hc', hcap', heq, hfst⟩
        · push_neg at hrest
          have hstable := selectBestLoop_stable cap health rest
            (some c₀.provider) (scoreOf health c₀)
            (fun c' hc' hcap' => hrest c' hc' hcap')
          rw [hstable]
          exact ⟨c₀, List.mem_cons_self c₀ rest, hcap₀, rfl, rfl⟩
      · simp only [selectBestLoop, hcap₀, if_true, hlt₀, if_false]
        rcases List.mem_cons.mp hc with rfl | hmem
        · exact absurd hlt hlt₀
        · exact
            have ⟨c', hc', h'⟩ := ih b s ⟨c, hmem, hcap, hlt⟩
            ⟨c', List.mem_cons_of_mem c₀ hc', h'⟩
    · simp only [selectBestLoop, hcap₀, Bool.false_eq_true, if_false]
      rcases List.mem_cons.mp hc with rfl | hmem
      · exact absurd hcap hcap₀
      · exact
          have ⟨c', hc', h'⟩ := ih b s ⟨c, hmem, hcap, hlt⟩
          ⟨c', List.mem_cons_of_mem c₀ hc', h'⟩

/-- Claim C2 (amended): whenever some configured provider both lists the
capability and has a *strictly positive* score, the selector succeeds and
returns the non-empty ordered list headed by a maximal-score
capability-holder, followed by that provider's `fallback_providers` in
declaration order filtered to capability-holders.  (When every qualifying
provider's score is `0` — e.g. `error_rate = 1` — the selector fails even
though providers qualify, refuting the claim's "only when no provider
qualifies".) -/
theorem selector_positive_score_total :
    ∀ (configs : List ProviderConfig) (health : HealthMap) (cap : Capability),
      (∃ c ∈ configs, c.hasCapability cap = true ∧ 0 < scoreOf health c) →
      ∃ c ∈ configs, c.hasCapability cap = true ∧
        (∀ c' ∈ configs, c'.hasCapability cap = true →
          scoreOf health c' ≤ scoreOf health c) ∧
        selectProvidersWithFallback configs health cap =
          .ok (c.provider :: fallbacksFor configs cap c.provider) := by
  intro configs health cap hex
  obtain ⟨c, hc, hcap, heq, hfst⟩ :=
    selectBestLoop_attained cap health configs none 0 hex
  refine ⟨c, hc, hcap, ?_, ?_⟩
  · intro c' hc' hcap'
    rw [heq]
    exact selectBestLoop_ub cap health configs none 0 c' hc' hcap'
  · simp only [selectProvidersWithFallback, selectBestProvider, hfst]

theorem selector_positive_score_total_witness :
    ∃ c ∈ [cfgSolo], c.hasCapability Capability.chatCompletion = true ∧
      (∀ c' ∈ [cfgSolo], c'.hasCapability Capability.chatCompletion = true →
        scoreOf healthFresh c' ≤ scoreOf healthFresh c) ∧
      selectProvidersWithFallback [cfgSolo] healthFresh
          Capability.chatCompletion =
        .ok (c.provider :: fallbacksFor [cfgSolo] Capability.chatCompletion
              c.provider) :=
  selector_positive_score_total [cfgSolo] healthFresh Capability.chatCompletion
    ⟨cfgSolo, List.mem_singleton.mpr rfl, rfl, by
      simp [scoreOf, healthFresh, cfgSolo, alookup, List.find?,
        ProviderHealth.init]⟩

/-- Claim C2 (counterexample): OpenAI is configured with `ChatCompletion`
(and is the only provider), but its `error_rate = 1` drives its score to
`0`, which never beats the loop's initial `best_score = 0.0`; the selector
therefore fails although a provider qualifies. -/
theorem selector_totality_cex :
    cfgSolo.hasCapability Capability.chatCompletion = true ∧
    selectProvidersWithFallback [cfgSolo] healthSaturated
        Capability.chatCompletion =
      .error (.provider (str "No providers available for capability")) := by
  refine ⟨rfl, ?_⟩
  have hs : scoreOf healthSaturated cfgSolo = 0 := by
    simp [scoreOf, healthSaturated, cfgSolo, alookup, List.find?]
  have hcap : cfgSolo.hasCapability Capability.chatCompletion = true := rfl
  simp [selectProvidersWithFallback, selectBestProvider, selectBestLoop, hcap,
    hs]

/-! ## Streaming pipeline (claims C5, C6) -/

/-- Claim C5 (confirmed): a synthesized stream that completes successfully
(`streamChunks` is the chunk sequence of both `create_real_stream`'s `Ok`
path, `k = 2`, and `create_simulated_stream`, `k = 3`) ends in exactly one
`finished = true` chunk; that chunk is the last element and carries an
empty delta, and every chunk before it has `finished = false`. -/
theorem stream_final_chunk_law :
    ∀ (k : Nat) (content model : Str) (p : Provider),
      (streamChunks k content model p).getLast? =
        some { delta := [], model := model, provider := p, finished := true } ∧
      (∀ c ∈ (streamChunks k content model p).dropLast, c.finished = false) ∧
      ((streamChunks k content model p).filter (fun c => c.finished)).length
        = 1 := by
  intro k content model p
  refine ⟨?_, ?_, ?_⟩
  · rw [streamChunks, List.getLast?_concat]
  · rw [streamChunks, List.dropLast_concat]
    intro c hc
    obtain ⟨d, -, rfl⟩ := List.mem_map.mp hc
    rfl
  · rw [streamChunks, List.filter_append]
    have hnil : ((streamDeltas k content).map (fun d =>
        ({ delta := d, model := model, provider := p, finished := false } :
          StreamedResponse))).filter (fun c => c.finished) = [] := by
      rw [List.filter_eq_nil_iff]
      intro c hc
      obtain ⟨d, -, rfl⟩ := List.mem_map.mp hc
      simp
    rw [hnil]
    rfl

lemma splitWSAux_ne_nil :
    ∀ (l acc : Str), ∀ w ∈ splitWSAux l acc, w ≠ [] := by
  intro l
  induction l with
  | nil =>
    intro acc w hw
    rw [splitWSAux] at hw
    by_cases ha : acc.isEmpty
    · rw [if_pos ha] at hw
      exact absurd hw (List.not_mem_nil w)
    · rw [if_neg ha, List.mem_singleton] at hw
      subst hw
      intro h
      exact ha (List.isEmpty_iff.mpr (List.reverse_eq_nil_iff.mp h))
  | cons c rest ih =>
    intro acc w hw
    by_cases hws : isWS c
    · by_cases ha : acc.isEmpty
      · rw [splitWSAux, if_pos hws, if_pos ha] at hw
        exact ih [] w hw
      · rw [splitWSAux, if_pos hws, if_neg ha] at hw
        rcases List.mem_cons.mp hw with rfl | hmem
        · intro h
          exact ha (List.isEmpty_iff.mpr (List.reverse_eq_nil_iff.mp h))
        · exact ih [] w hmem
    · rw [splitWSAux, if_neg hws] at hw
      exact ih (c :: acc) w hw

lemma splitWS_ne_nil (s : Str) : ∀ w ∈ splitWS s, w ≠ [] :=
  splitWSAux_ne_nil s []

lemma chunksOfAux_flatten {α : Type} (k : Nat) :
    ∀ (fuel : Nat) (l : List α), l.length ≤ fuel →
      (chunksOfAux k fuel l).flatten = l := by
  intro fuel
  induction fuel with
  | zero =>
    intro l hl
    rw [List.length_eq_zero.mp (Nat.le_zero.mp hl)]
    rfl
  | succ fuel ih =>
    intro l hl
    match l with
    | [] => rfl
    | x :: xs =>
      rw [chunksOfAux, List.flatten_cons,
        ih (xs.drop (k - 1))
          (le_trans (by rw [List.length_drop]; exact Nat.sub_le _ _)
            (Nat.le_of_succ_le_succ hl)),
        List.cons_append, List.take_append_drop]

lemma chunksOf_flatten {α : Type} (k : Nat) (l : List α) :
    (chunksOf k l).flatten = l :=
  chunksOfAux_flatten k l.length l le_rfl

lemma chunksOfAux_ne_nil {α : Type} (k : Nat) :
    ∀ (fuel : Nat) (l : List α), ∀ c ∈ chunksOfAux k fuel l, c ≠ [] := by
  intro fuel
  induction fuel with
  | zero => intro l c hc; simp [chunksOfAux] at hc
  | succ fuel ih =>
    intro l c hc
    match l with
    | [] => simp [chunksOfAux] at hc
    | x :: xs =>
      rw [chunksOfAux] at hc
      rcases List.mem_cons.mp hc with rfl | hmem
      · simp
      · exact ih (xs.drop (k - 1)) c hmem

lemma chunksOf_ne_nil {α : Type} (k : Nat) (l : List α) :
    ∀ c ∈ chunksOf k l, c ≠ [] :=
  chunksOfAux_ne_nil k l.length l

lemma joinSep_cons_flatten (sep : Char) :
    ∀ (xs : List Str) (x : Str),
      joinSep sep (x :: xs) = x ++ (xs.map (fun w => sep :: w)).flatten := by
  intro xs
  induction xs with
  | nil => intro x; simp [joinSep]
  | cons y t ih =>
    intro x
    rw [show joinSep sep (x :: y :: t) = x ++ sep :: joinSep sep (y :: t) from rfl,
      ih y]
    simp

lemma joinSep_append (sep : Char) :
    ∀ (a b : List Str), a ≠ [] → b ≠ [] →
      joinSep sep (a ++ b) = joinSep sep a ++ sep :: joinSep sep b := by
  intro a b ha hb
  match a, b with
  | x :: a', y :: b' =>
    rw [List.cons_append, joinSep_cons_flatten, joinSep_cons_flatten,
      joinSep_cons_flatten]
    simp [List.flatten_append, List.append_assoc]

lemma joinSep_ne_nil (sep : Char) :
    ∀ (c : List Str), c ≠ [] → (∀ w ∈ c, w ≠ []) → joinSep sep c ≠ [] := by
  intro c hc hw
  match c with
  | [w] => simpa [joinSep] using hw w (List.mem_singleton.mpr rfl)
  | w :: x :: t => simp [joinSep]

lemma filterMap_deltaOf_shift :
    ∀ (cs : List (List Str)) (s : Nat), s ≠ 0 →
      (∀ c ∈ cs, joinSep ' ' c ≠ []) →
      (cs.enumFrom s).filterMap (fun ic => deltaOf ic.1 ic.2) =
        cs.map (fun c => ' ' :: joinSep ' ' c) := by
  intro cs
  induction cs with
  | nil => intro s _ _; rfl
  | cons c rest ih =>
    intro s hs hne
    have hd : deltaOf s c = some (' ' :: joinSep ' ' c) := by
      have h1 : (joinSep ' ' c).isEmpty = false := by
        simpa [List.isEmpty_iff] using hne c (List.mem_cons_self c rest)
      simp [deltaOf, h1, hs]
    rw [List.enumFrom_cons]
    simp only [List.filterMap_cons, hd, List.map_cons]
    congr 1
    exact ih (s + 1) (Nat.succ_ne_zero s)
      (fun c' hc' => hne c' (List.mem_cons_of_mem c hc'))

lemma joinSep_chunk_blocks (sep : Char) :
    ∀ (rest : List (List Str)) (c : List Str), c ≠ [] →
      (∀ x ∈ rest, x ≠ []) →
      joinSep sep c ++ (rest.map (fun x => sep :: joinSep sep x)).flatten =
        joinSep sep ((c :: rest).flatten) := by
  intro rest
  induction rest with
  | nil => intro c _ _; simp [List.flatten_cons]
  | cons c' rest' ih =>
    intro c hc hx
    have hc' : c' ≠ [] := hx c' (List.mem_cons_self c' rest')
    have hflat : (c' :: rest').flatten ≠ [] := by
      simp only [List.flatten_cons, ne_eq, List.append_eq_nil, not_and]
      intro h
      exact absurd h hc'
    calc joinSep sep c ++ ((c' :: rest').map (fun x => sep :: joinSep sep x)).flatten
        = joinSep sep c ++ sep ::
            (joinSep sep c' ++ (rest'.map (fun x => sep :: joinSep sep x)).flatten) := by
          simp
      _ = joinSep sep c ++ sep :: joinSep sep ((c' :: rest').flatten) := by
          rw [ih c' hc' (fun x hxm => hx x (List.mem_cons_of_mem c' hxm))]
      _ = joinSep sep (c ++ (c' :: rest').flatten) := by
          rw [joinSep_append sep c ((c' :: rest').flatten) hc hflat]
      _ = joinSep sep ((c :: c' :: rest').flatten) := by
          simp [List.flatten_cons]

lemma streamDeltas_flatten (k : Nat) (content : Str) :
    (streamDeltas k content).flatten = joinSep ' ' (splitWS content) := by
  have hwords := splitWS_ne_nil content
  have hjoin := chunksOf_flatten k (splitWS content)
  have hchunk := chunksOf_ne_nil k (splitWS content)
  have hcw : ∀ c ∈ chunksOf k (splitWS content), ∀ w ∈ c, w ≠ [] := by
    intro c hc w hw
    exact hwords w (hjoin ▸ (List.mem_flatten.mpr ⟨c, hc, hw⟩))
  have hne : ∀ c ∈ chunksOf k (splitWS content), joinSep ' ' c ≠ [] :=
    fun c hc => joinSep_ne_nil ' ' c (hchunk c hc) (hcw c hc)
  rw [streamDeltas]
  match hcs : chunksOf k (splitWS content) with
  | [] =>
    rw [hcs] at hjoin
    rw [← hjoin]
    rfl
  | c :: rest =>
    rw [hcs] at hjoin hne hchunk
    have hd : deltaOf 0 c = some (joinSep ' ' c) := by
      have h1 : (joinSep ' ' c).isEmpty = false := by
        simpa [List.isEmpty_iff] using hne c (List.mem_cons_self c rest)
      simp [deltaOf, h1]
    rw [List.enum_cons]
    simp only [List.filterMap_cons, hd]
    rw [filterMap_deltaOf_shift rest 1 Nat.one_ne_zero
        (fun c' hc' => hne c' (List.mem_cons_of_mem c hc')),
      List.flatten_cons,
      joinSep_chunk_blocks ' ' rest c (hchunk c (List.mem_cons_self c rest))
        (fun x hxm => hchunk x (List.mem_cons_of_mem c hxm)),
      hjoin]

theorem stream_final_chunk_law_witness :
    (streamChunks 2 (str "hi") (str "m") Provider.openAI).getLast? =
      some { delta := [], model := str "m", provider := Provider.openAI,
             finished := true } :=
  (stream_final_chunk_law 2 (str "hi") (str "m") Provider.openAI).1

/-- Claim C6 (amended): concatenating the non-final deltas of a synthesized
stream yields the whitespace-separated words of the underlying content
joined by single spaces — the content with whitespace runs collapsed *and*
leading/trailing whitespace removed; for `"one two three four five"` with
`k = 2` the chunk sequence is exactly `"one two"`, `" three four"`,
`" five"`, then the final empty `finished = true` chunk. -/
theorem stream_concat_words :
    (∀ (k : Nat) (content : Str),
      (streamDeltas k content).flatten = joinSep ' ' (splitWS content)) ∧
    streamChunks 2 (str "one two three four five") (str "m") Provider.openAI =
      [{ delta := str "one two", model := str "m", provider := .openAI,
         finished := false },
       { delta := str " three four", model := str "m", provider := .openAI,
         finished := false },
       { delta := str " five", model := str "m", provider := .openAI,
         finished := false },
       { delta := [], model := str "m", provider := .openAI,
         finished := true }] := by
  constructor
  · exact streamDeltas_flatten
  · decide

/-- Claim C6 (counterexample): for content `" hi"` the concatenated deltas
are `"hi"`, while collapsing each maximal whitespace run of the content to
a single space yields `" hi"` — the claim's normalization keeps a leading
space that word-splitting discards. -/
theorem stream_concat_collapse_cex :
    (streamDeltas 2 (str " hi")).flatten = str "hi" ∧
    collapseWS (str " hi") = str " hi" ∧
    str "hi" ≠ str " hi" := by
  decide

theorem stream_concat_words_witness :
    (streamDeltas 2 (str "a b c")).flatten =
      joinSep ' ' (splitWS (str "a b c")) :=
  stream_concat_words.1 2 (str "a b c")

/-! ## Anthropic-family message translation (claim C7) -/

lemma convertStep_fst_other (a : Str × List (Str × Str)) (m : ChatMessage)
    (h : ¬ m.role = str "system") : (convertStep a m).1 = a.1 := by
  rw [convertStep, if_neg h]
  by_cases h2 : m.role = str "user" ∨ m.role = str "assistant"
  · rw [if_pos h2]
  · rw [if_neg h2]

lemma sysContents_cons_system (m : ChatMessage) (rest : List ChatMessage)
    (h : m.role = str "system") :
    sysContents (m :: rest) = m.content :: sysContents rest := by
  simp [sysContents, h]

lemma sysContents_cons_other (m : ChatMessage) (rest : List ChatMessage)
    (h : ¬ m.role = str "system") :
    sysContents (m :: rest) = sysContents rest := by
  simp [sysContents, h]

lemma convertFold_fst_nonempty :
    ∀ (msgs : List ChatMessage) (a : Str × List (Str × Str)), a.1 ≠ [] →
      (msgs.foldl convertStep a).1 =
        a.1 ++ ((sysContents msgs).map (fun c => '\n' :: c)).flatten := by
  intro msgs
  induction msgs with
  | nil => intro a _; simp [sysContents]
  | cons m rest ih =>
    intro a ha
    rw [List.foldl_cons]
    by_cases hrole : m.role = str "system"
    · have hae : a.1.isEmpty = false := by simpa [List.isEmpty_iff] using ha
      have hstep : convertStep a m = (a.1 ++ '\n' :: m.content, a.2) := by
        rw [convertStep, if_pos hrole, hae]
        rfl
      rw [hstep,
        ih (a.1 ++ '\n' :: m.content, a.2) (by simp),
        sysContents_cons_system m rest hrole]
      simp
    · rw [ih (convertStep a m)
          (by rw [convertStep_fst_other a m hrole]; exact ha),
        convertStep_fst_other a m hrole,
        sysContents_cons_other m rest hrole]

lemma convertFold_fst :
    ∀ (msgs : List ChatMessage) (a : Str × List (Str × Str)), a.1 = [] →
      (msgs.foldl convertStep a).1 =
        joinSep '\n' ((sysContents msgs).dropWhile List.isEmpty) := by
  intro msgs
  induction msgs with
  | nil => intro a ha; simpa [sysContents] using ha
  | cons m rest ih =>
    intro a ha
    rw [List.foldl_cons]
    by_cases hrole : m.role = str "system"
    · have hae : a.1.isEmpty = true := by simp [ha]
      have hstep : convertStep a m = (a.1 ++ m.content, a.2) := by
        rw [convertStep, if_pos hrole, hae]
        rfl
      rw [sysContents_cons_system m rest hrole]
      by_cases hm : m.content.isEmpty
      · have hm' : m.content = [] := List.isEmpty_iff.mp hm
        rw [hstep,
          ih (a.1 ++ m.content, a.2) (by simp [ha, hm']),
          List.dropWhile_cons_of_pos hm]
      · have hm' : m.content ≠ [] := by simpa [List.isEmpty_iff] using hm
        rw [hstep,
          convertFold_fst_nonempty rest (a.1 ++ m.content, a.2)
            (by simp [ha, hm']),
          List.dropWhile_cons_of_neg (by simpa using hm),
          joinSep_cons_flatten]
        simp [ha]
    · rw [ih (convertStep a m)
          (by rw [convertStep_fst_other a m hrole]; exact ha),
        sysContents_cons_other m rest hrole]

lemma convertFold_snd :
    ∀ (msgs : List ChatMessage) (a : Str × List (Str × Str)),
      (msgs.foldl convertStep a).2 = a.2 ++ msgs.filterMap forwardMessage := by
  intro msgs
  induction msgs with
  | nil => intro a; simp
  | cons m rest ih =>
    intro a
    rw [List.foldl_cons, ih (convertStep a m)]
    by_cases hrole : m.role = str "system"
    · have hstep : (convertStep a m).2 = a.2 := by
        rw [convertStep, if_pos hrole]
      rw [hstep, List.filterMap_cons]
      have : forwardMessage m = none := by rw [forwardMessage, if_pos hrole]
      rw [this]
    · by_cases h2 : m.role = str "user" ∨ m.role = str "assistant"
      · have hstep : (convertStep a m).2 = a.2 ++ [(m.role, m.content)] := by
          rw [convertStep, if_neg hrole, if_pos h2]
        have hf : forwardMessage m = some (m.role, m.content) := by
          rw [forwardMessage, if_neg hrole, if_pos h2]
        rw [hstep, List.filterMap_cons, hf]
        simp
      · have hstep : (convertStep a m).2 = a.2 ++ [(str "user", m.content)] := by
          rw [convertStep, if_neg hrole, if_neg h2]
        have hf : forwardMessage m = some (str "user", m.content) := by
          rw [forwardMessage, if_neg hrole, if_neg h2]
        rw [hstep, List.filterMap_cons, hf]
        simp

lemma dropWhile_head_false {α : Type} (p : α → Bool) :
    ∀ (l : List α) (c : α) (t : List α), l.dropWhile p = c :: t →
      p c = false := by
  intro l
  induction l with
  | nil => intro c t h; exact absurd h (by simp)
  | cons x xs ih =>
    intro c t h
    by_cases hp : p x
    · rw [List.dropWhile_cons_of_pos hp] at h
      exact ih c t h
    · rw [List.dropWhile_cons_of_neg hp] at h
      rw [← (List.cons.injEq x xs c t).mp h |>.1]
      exact Bool.not_eq_true _ ▸ by simpa using hp

lemma joinSep_cons_ne_nil (sep : Char) (c : Str) (t : List Str)
    (hc : c ≠ []) : joinSep sep (c :: t) ≠ [] := by
  match t with
  | [] => simpa [joinSep] using hc
  | y :: t' => simp [joinSep]

/-- Claim C7 (amended): the system prompt accumulated by
`convert_messages` is the system-message contents joined by newlines
*after dropping leading empty contents* (a newline is inserted before a
content only when the accumulator is already non-empty); `user` and
`assistant` messages are forwarded with their role unchanged and every
other role is rewritten to `user`; the wire payload's `system` field is
omitted exactly when every system content is empty — in particular when
there are no system messages. -/
theorem claude_system_folding :
    ∀ msgs : List ChatMessage,
      (convertMessages msgs).1 =
        joinSep '\n' ((sysContents msgs).dropWhile List.isEmpty) ∧
      (convertMessages msgs).2 = msgs.filterMap forwardMessage ∧
      (claudeSystemField msgs = none ↔ (sysContents msgs).all List.isEmpty) := by
  intro msgs
  have h1 : (convertMessages msgs).1 =
      joinSep '\n' ((sysContents msgs).dropWhile List.isEmpty) :=
    convertFold_fst msgs ([], []) rfl
  refine ⟨h1, by simpa using convertFold_snd msgs ([], []), ?_⟩
  rw [claudeSystemField]
  constructor
  · intro hnone
    by_contra hall
    have hne : (convertMessages msgs).1 ≠ [] := by
      rw [h1]
      match hdw : (sysContents msgs).dropWhile List.isEmpty with
      | [] =>
        exact absurd (List.all_eq_true.mpr
          (fun x hx => List.dropWhile_eq_nil_iff.mp hdw x hx)) hall
      | c :: t =>
        have hcne : c ≠ [] := by
          simpa [List.isEmpty_iff] using
            dropWhile_head_false List.isEmpty (sysContents msgs) c t hdw
        exact joinSep_cons_ne_nil '\n' c t hcne
    rw [if_neg (by simpa [List.isEmpty_iff] using hne)] at hnone
    exact Option.some_ne_none _ hnone
  · intro hall
    have : ((sysContents msgs).dropWhile List.isEmpty) = [] :=
      List.dropWhile_eq_nil_iff.mpr (fun x hx => List.all_eq_true.mp hall x hx)
    rw [if_pos (by rw [h1, this]; rfl)]

/-- Claim C7 (counterexample): for messages
`[{system, ""}, {system, "B"}, {user, "hi"}]` the accumulated system prompt
is `"B"`, not the newline-joined concatenation `"\nB"` of all system
contents that the claim prescribes. -/
theorem claude_system_folding_cex :
    (convertMessages msgsEmptySys).1 = str "B" ∧
    joinSep '\n' (sysContents msgsEmptySys) = '\n' :: str "B" ∧
    str "B" ≠ '\n' :: str "B" := by
  decide

theorem claude_system_folding_witness :
    (convertMessages msgsEmptySys).1 =
      joinSep '\n' ((sysContents msgsEmptySys).dropWhile List.isEmpty) :=
  (claude_system_folding msgsEmptySys).1

/-! ## Action-approval caches (claim C8) -/

/-- Claim C8 (counterexample): with an `AllowedSession` entry stored for
`FileWrite("/a")` and no rules, a request for `FileWrite("/b")` — the same
tag variant, different path — does *not* hit the session cache: the
decision falls through to the prompt and is `AllowedOnce`, not
`AllowedSession`.  The caches key on the full `ActionType` value, content
fields included. -/
theorem approval_cache_tag_cex :
    requestApprovalStatus 0 [] sessionForA [] reqWriteB =
      ApprovalStatus.allowedOnce ∧
    ApprovalStatus.allowedOnce ≠ ApprovalStatus.allowedSession ∧
    actionTag (ActionType.fileWrite (str "/a")) =
      actionTag reqWriteB.actionType := by
  decide

/-- Claim C8 (amended): the session and project caches are keyed by the
*full* `ActionType` value (tag and content fields): when no rule matches,
a session entry `AllowedSession` for exactly the request's action value is
returned; otherwise a project entry `AllowedProject` or `Denied` for
exactly `(project_path, action value)` is returned. -/
theorem approval_cache_exact_key :
    ∀ (hour : Nat) (rules : List ApprovalRule) (session : SessionApprovals)
      (project : ProjectApprovals) (req : ActionRequest),
      checkAutoApproval hour rules req = none →
      ((alookup session req.actionType = some .allowedSession →
          requestApprovalStatus hour rules session project req =
            .allowedSession) ∧
       (∀ pp pm, alookup session req.actionType ≠ some .allowedSession →
          req.context.projectPath = some pp →
          alookup project pp = some pm →
          alookup pm req.actionType = some .allowedProject →
          requestApprovalStatus hour rules session project req =
            .allowedProject) ∧
       (∀ pp pm, alookup session req.actionType ≠ some .allowedSession →
          req.context.projectPath = some pp →
          alookup project pp = some pm →
          alookup pm req.actionType = some .denied →
          requestApprovalStatus hour rules session project req =
            .denied)) := by
  intro hour rules session project req hauto
  refine ⟨?_, ?_, ?_⟩
  · intro hsess
    simp [requestApprovalStatus, hauto, checkExistingApprovals, hsess]
  · intro pp pm hsess hpp hpm hlook
    rcases hs : alookup session req.actionType with - | st
    · simp [requestApprovalStatus, hauto, checkExistingApprovals, hs, hpp,
        hpm, hlook]
    · cases st with
      | allowedSession => exact absurd hs hsess
      | _ =>
        simp [requestApprovalStatus, hauto, checkExistingApprovals, hs, hpp,
          hpm, hlook]
  · intro pp pm hsess hpp hpm hlook
    rcases hs : alookup session req.actionType with - | st
    · simp [requestApprovalStatus, hauto, checkExistingApprovals, hs, hpp,
        hpm, hlook]
    · cases st with
      | allowedSession => exact absurd hs hsess
      | _ =>
        simp [requestApprovalStatus, hauto, checkExistingApprovals, hs, hpp,
          hpm, hlook]

theorem approval_cache_exact_key_witness :
    requestApprovalStatus 0 [] [(ActionType.fileWrite (str "/b"),
        ApprovalStatus.allowedSession)] [] reqWriteB =
      ApprovalStatus.allowedSession :=
  (approval_cache_exact_key 0 []
      [(ActionType.fileWrite (str "/b"), ApprovalStatus.allowedSession)] []
      reqWriteB rfl).1 rfl

/-! ## Todo task manager (claims C9, C10) -/

lemma findIdx?_decomp {α : Type} (p : α → Bool) :
    ∀ (l : List α) (i : Nat), l.findIdx? p = some i →
      ∃ pre x post, l = pre ++ x :: post ∧ pre.length = i ∧ p x = true ∧
        ∀ y ∈ pre, p y = false := by
  intro l
  induction l with
  | nil => intro i h; simp [List.findIdx?_nil] at h
  | cons x xs ih =>
    intro i h
    rw [List.findIdx?_cons] at h
    by_cases hx : p x
    · rw [if_pos hx] at h
      refine ⟨[], x, xs, rfl, ?_, hx, by simp⟩
      simpa using (Option.some.injEq _ _).mp h
    · rw [if_neg hx, List.findIdx?_succ] at h
      obtain ⟨j, hj, hji⟩ := Option.map_eq_some'.mp h
      subst hji
      obtain ⟨pre, y, post, hl, hlen, hpy, hpre⟩ := ih j hj
      refine ⟨x :: pre, y, post, by rw [hl, List.cons_append], by simp [hlen], hpy, ?_⟩
      intro z hz
      rcases List.mem_cons.mp hz with rfl | hmem
      · simpa using hx
      · exact hpre z hmem

lemma set_at_middle {α : Type} :
    ∀ (pre : List α) (x v : α) (post : List α),
      (pre ++ x :: post).set pre.length v = pre ++ v :: post := by
  intro pre
  induction pre with
  | nil => intro x v post; rfl
  | cons a pre ih => intro x v post; simp [List.set_cons_succ, ih]

lemma getElem?_at_middle {α : Type} :
    ∀ (pre : List α) (x : α) (post : List α),
      (pre ++ x :: post)[pre.length]? = some x := by
  intro pre
  induction pre with
  | nil => intro x post; simp
  | cons a pre ih => intro x post; simpa using ih x post

/-- Claim C9 (counterexample): `set_task_list` validates nothing — replacing
the (legal) empty list with a list holding two `InProgress` tasks succeeds
and breaks the single-active-task invariant. -/
theorem task_single_active_cex :
    setTaskList [] [taskMk "1" .inProgress [], taskMk "2" .inProgress []] =
      .ok [taskMk "1" .inProgress [], taskMk "2" .inProgress []] ∧
    atMostOneInProgress ([] : Tasks) ∧
    ¬ atMostOneInProgress
        [taskMk "1" .inProgress [], taskMk "2" .inProgress []] := by
  refine ⟨rfl, by decide, by decide⟩

/-- Claim C9 (amended): `update_task_status` (on lists with pairwise
distinct task ids) and `remove_task` preserve the single-active-task
invariant, and `add_task` preserves it when the added task is not
`InProgress` (as is every task built by `Task::new`); `update_task_status`
rejects a transition to `InProgress` while a task with another id holds
`InProgress`, returning an error and leaving the list unchanged.
`set_task_list` does not preserve the invariant (see the counterexample),
and `add_task` accepts a caller-built `InProgress` task unchecked. -/
theorem task_single_active :
    (∀ (tasks : Tasks) (taskId : Str) (st : TaskStatus) (tasks' : Tasks),
      (tasks.map Task.id).Nodup → atMostOneInProgress tasks →
      updateTaskStatus tasks taskId st = .ok tasks' →
      atMostOneInProgress tasks') ∧
    (∀ (tasks : Tasks) (taskId : Str) (tasks' : Tasks),
      atMostOneInProgress tasks → removeTask tasks taskId = .ok tasks' →
      atMostOneInProgress tasks') ∧
    (∀ (tasks : Tasks) (t : Task) (tasks' : Tasks),
      atMostOneInProgress tasks → t.status ≠ .inProgress →
      addTask tasks t = .ok tasks' → atMostOneInProgress tasks') ∧
    (∀ (tasks : Tasks) (taskId : Str) (u : Task) (tasks' : Tasks),
      u ∈ tasks → u.id ≠ taskId → u.status = .inProgress →
      updateTaskStatus tasks taskId .inProgress ≠ .ok tasks') := by
  refine ⟨?_, ?_, ?_, ?_⟩
  · -- update_task_status preserves the invariant (distinct ids)
    intro tasks taskId st tasks' hnodup hinv hok
    simp only [updateTaskStatus] at hok
    match hidx : tasks.findIdx? (fun t => t.id == taskId) with
    | none => rw [hidx] at hok; simp at hok
    | some i =>
      obtain ⟨pre, t0, post, htasks, hlen, hp, hpre⟩ :=
        findIdx?_decomp (fun t => t.id == taskId) tasks i hidx
      subst htasks
      subst hlen
      rw [hidx] at hok
      simp only [getElem?_at_middle] at hok
      have ht0id : t0.id = taskId := by simpa using hp
      split_ifs at hok with h1 h2 h3
      rw [set_at_middle] at hok
      injection hok with hok
      subst hok
      by_cases hst : st = TaskStatus.inProgress
      · -- transition to InProgress: the guard emptied the other slots
        have hlen0 : (List.filter
            (fun u => u.id != taskId && u.status == TaskStatus.inProgress)
            (pre ++ t0 :: post)).length = 0 := by
          by_contra hne
          exact h3 ⟨hst, Nat.pos_of_ne_zero hne⟩
        have hall : ∀ u ∈ pre ++ t0 :: post,
            ¬ (u.id != taskId && u.status == TaskStatus.inProgress) = true :=
          List.filter_eq_nil_iff.mp (List.length_eq_zero.mp hlen0)
        have hother : ∀ u ∈ pre ++ t0 :: post,
            u.id ≠ taskId → (u.status == TaskStatus.inProgress) = false := by
          intro u hu hid
          have := Bool.eq_false_iff.mpr (hall u hu)
          rcases Bool.and_eq_false_iff.mp this with h | h
          · exact absurd (by simpa using h) hid
          · exact h
        have hprefilter : pre.filter
            (fun t => t.status == TaskStatus.inProgress) = [] := by
          rw [List.filter_eq_nil_iff]
          intro y hy
          have hyid : y.id ≠ taskId := by simpa using hpre y hy
          simpa using hother y (List.mem_append_left _ hy) hyid
        have hpostid : ∀ y ∈ post, y.id ≠ taskId := by
          intro y hy hid
          have hnotin : t0.id ∉ post.map Task.id := by
            have h1 := (List.nodup_append.mp (by simpa using hnodup)).2.1
            exact (List.nodup_cons.mp h1).1
          exact hnotin (List.mem_map.mpr ⟨y, hy, by rw [hid, ht0id]⟩)
        have hpostfilter : post.filter
            (fun t => t.status == TaskStatus.inProgress) = [] := by
          rw [List.filter_eq_nil_iff]
          intro y hy
          simpa using hother y
            (List.mem_append_right _ (List.mem_cons_of_mem t0 hy))
            (hpostid y hy)
        simp [atMostOneInProgress, List.filter_append, List.filter_cons,
          hprefilter, hpostfilter, Task.setStatus, hst]
      · -- any other target status cannot increase the count
        have hmid : ((t0.setStatus st).status ==
            TaskStatus.inProgress) = false := by
          simp only [Task.setStatus]
          exact beq_eq_false_iff_ne.mpr hst
        simp only [atMostOneInProgress, List.filter_append,
          List.filter_cons, List.length_append, hmid, Bool.false_eq_true,
          if_false, List.length_cons] at hinv ⊢
        by_cases hp0 : (t0.status == TaskStatus.inProgress) = true
        · simp only [hp0, if_true, List.length_cons] at hinv
          omega
        · rw [Bool.not_eq_true] at hp0
          simp only [hp0, Bool.false_eq_true, if_false] at hinv
          omega
  · -- remove_task preserves the invariant
    intro tasks taskId tasks' hinv hok
    simp only [removeTask] at hok
    split_ifs at hok with h
    injection hok with hok
    subst hok
    exact le_trans
      (((tasks.eraseP_sublist (p := fun t => t.id == taskId)).filter
        (fun t => t.status == TaskStatus.inProgress)).length_le) hinv
  · -- add_task preserves the invariant for a non-InProgress task
    intro tasks t tasks' hinv ht hok
    simp only [addTask] at hok
    split_ifs at hok with h
    injection hok with hok
    subst hok
    have hpt : (t.status == TaskStatus.inProgress) = false := by
      simpa using ht
    simpa [atMostOneInProgress, List.filter_append, List.filter_cons, hpt]
      using hinv
  · -- a second InProgress task blocks the transition
    intro tasks taskId u tasks' hu hid hIP hok
    simp only [updateTaskStatus] at hok
    match hidx : tasks.findIdx? (fun t => t.id == taskId) with
    | none => rw [hidx] at hok; simp at hok
    | some i =>
      simp only [hidx] at hok
      match hget : tasks[i]? with
      | none => simp only [hget] at hok; simp at hok
      | some t =>
        simp only [hget] at hok
        split_ifs at hok with h1 h2 h3
        refine h3 ⟨by trivial, ?_⟩
        have humem : u ∈ tasks.filter
            (fun v => v.id != taskId && v.status == TaskStatus.inProgress) :=
          List.mem_filter.mpr ⟨hu, by simp [hid, hIP]⟩
        exact List.length_pos.mpr (List.ne_nil_of_mem humem)

/-- Claim C10 (code evaluation): `update_task_status` moves task `"a"` out
of `Pending` into `InProgress` although its dependency `"b"` is not
`Completed` — the dependency condition (`Task::can_start`) is never
consulted by `update_task_status`. -/
theorem update_status_ignores_dependencies :
    updateTaskStatus
        [taskMk "a" .pending [str "b"], taskMk "b" .pending []]
        (str "a") .inProgress =
      .ok [taskMk "a" .inProgress [str "b"], taskMk "b" .pending []] ∧
    depsCompleted [taskMk "a" .pending [str "b"], taskMk "b" .pending []]
        (taskMk "a" .pending [str "b"]) = false := by
  exact ⟨rfl, rfl⟩

theorem task_single_active_witness :
    atMostOneInProgress [taskMk "1" .inProgress []] :=
  task_single_active.1 [taskMk "1" .pending []] (str "1")
    TaskStatus.inProgress [taskMk "1" .inProgress []] (by decide) (by decide)
    rfl

end Zeke
